import Mathlib

/-!
Shallow embedding of the chess-engine driver in src/chess/engine.py:
the option model (`Option.parse`, `UciOptionMap`), the score model
(`Cp`/`Mate`/`MateGiven` with the tuple-based total order), the UCI info
parser, the XBoard play fragments, and the command-dispatch core
(`EngineProtocol.communicate`, `connection_lost`, `BaseCommand`).
Python values, exceptions and container semantics are modelled explicitly.
-/

namespace PyChess

/-- Model of the Python values that flow through the engine option layer:
strings, integers, booleans and the None object. -/
inductive Value where
  | str (s : String)
  | int (n : Int)
  | bool (b : Bool)
  | null
deriving DecidableEq, Repr

/-- Python truthiness of a modelled value: empty string, zero, False and
None are falsy, everything else is truthy. -/
def pyTruthy : Value → Bool
  | .str s => s != ""
  | .int n => n != 0
  | .bool b => b
  | .null => false

/-- Python equality between modelled values: booleans are numeric
(True == 1, False == 0); values of unrelated types compare unequal. -/
def pyEq : Value → Value → Bool
  | .str a, .str b => a == b
  | .int a, .int b => a == b
  | .bool a, .bool b => a == b
  | .int a, .bool b => a == (if b then (1 : Int) else 0)
  | .bool a, .int b => (if a then (1 : Int) else 0) == b
  | .null, .null => true
  | _, _ => false

/-- Python str() of a modelled value. -/
def pyStr : Value → String
  | .str s => s
  | .int n => toString n
  | .bool b => if b then "True" else "False"
  | .null => "None"

/-- Python whitespace, for the stripping performed by int() (ASCII
fragment). -/
def isPySpace (c : Char) : Bool := c = ' ' ∨ c = '\t' ∨ c = '\n' ∨ c = '\r'

/-- Numeric value of a list of decimal digits. -/
def digitsVal (ds : List Char) : Nat := ds.foldl (fun a c => a * 10 + (c.toNat - 48)) 0

/-- Python int() applied to a string: surrounding whitespace is stripped and
an optional sign is followed by decimal digits. Underscore separators and
non-ASCII digits, which CPython also accepts, are outside the modelled
fragment. -/
def pyIntOfString (s : String) : Option Int :=
  let cs := ((s.toList.dropWhile isPySpace).reverse.dropWhile isPySpace).reverse
  let signed : Int × List Char :=
    match cs with
    | '-' :: rest => (-1, rest)
    | '+' :: rest => (1, rest)
    | rest => (1, rest)
  if signed.2 ≠ [] ∧ signed.2.all Char.isDigit then
    some (signed.1 * (digitsVal signed.2 : Int))
  else
    none

/-- Python exceptions the modelled code can raise. EngineError is the
driver's protocol-fault error; the others are built-in exceptions. -/
inductive PyErr where
  | engineError
  | engineTerminated (code : Int)
  | valueError
  | typeError
  | keyError (key : String)
  | indexError
  | unboundLocalError
  | invalidStateError
deriving DecidableEq, Repr

/-- Python int() on a modelled value: ints pass through, booleans coerce to
0 or 1, strings parse as decimal literals (ValueError on failure), and None
raises TypeError. -/
def pyInt : Value → Except PyErr Int
  | .int n => .ok n
  | .bool b => .ok (if b then 1 else 0)
  | .str s =>
    match pyIntOfString s with
    | some n => .ok n
    | none => .error .valueError
  | .null => .error .typeError

/-- Engine option descriptor; the source class is the namedtuple
Option(name, type, default, min, max, var). -/
structure EngineOption where
  name : String
  type : String
  default : Value
  min : Option Int
  max : Option Int
  var : Option (List String)
deriving DecidableEq, Repr

/-- Option.parse. The check branch returns `value and value != "false"`
(so a falsy value is returned unchanged); spin converts with int() — the
ValueError is turned into an EngineError while a TypeError propagates — and
checks the bounds; combo stringifies and requires membership in var (when
var is None the failure path evaluates ", ".join(None) and raises
TypeError); button/reset/save give None; string/file/path reject embedded
line breaks; an unknown type raises EngineError. -/
def EngineOption.parse (o : EngineOption) (value : Value) : Except PyErr Value :=
  if o.type = "check" then
    .ok (if pyTruthy value then .bool (!pyEq value (.str "false")) else value)
  else if o.type = "spin" then
    match pyInt value with
    | .error .valueError => .error .engineError
    | .error e => .error e
    | .ok n =>
      if (match o.min with | some m => decide (n < m) | none => false) then .error .engineError
      else if (match o.max with | some m => decide (m < n) | none => false) then .error .engineError
      else .ok (.int n)
  else if o.type = "combo" then
    let s := pyStr value
    if s ∈ o.var.getD [] then .ok (.str s)
    else
      match o.var with
      | some _ => .error .engineError
      | none => .error .typeError
  else if o.type = "button" ∨ o.type = "reset" ∨ o.type = "save" then
    .ok .null
  else if o.type = "string" ∨ o.type = "file" ∨ o.type = "path" then
    let s := pyStr value
    if s.contains '\n' ∨ s.contains '\r' then .error .engineError
    else .ok (.str s)
  else .error .engineError

/-- Score values: centipawns (Cp), mate distances (Mate) and the MateGiven
terminal. -/
inductive Score where
  | cp (n : Int)
  | mate (n : Int)
  | mateGiven
deriving DecidableEq, Repr

/-- Score.mate(): plies to mate or None; MateGiven reports 0. -/
def Score.mateVal : Score → Option Int
  | .cp _ => none
  | .mate n => some n
  | .mateGiven => some 0

/-- Score.is_mate(). -/
def Score.isMate (s : Score) : Bool := s.mateVal.isSome

/-- Score.score() with mate_score left at None: the centipawn value for Cp
and None for Mate and MateGiven. -/
def Score.scoreVal : Score → Option Int
  | .cp n => some n
  | .mate _ => none
  | .mateGiven => none

/-- Score._score_tuple: the 5-tuple Python compares lexicographically.
The fourth component models `-(self.mate() or 0)`. -/
def Score.scoreTuple (s : Score) : Bool × Bool × Bool × Int × Option Int :=
  (decide (s = .mateGiven),
   s.isMate && decide (0 < s.mateVal.getD 0),
   !s.isMate,
   -(s.mateVal.getD 0),
   s.scoreVal)

/-- Python < on Option Int: defined only when both operands are ints;
comparing None raises TypeError, modelled as none. -/
def pyLtOptInt : Option Int → Option Int → Option Bool
  | some a, some b => some (decide (a < b))
  | _, _ => none

/-- Python lexicographic < on score tuples: the first unequal component
decides; booleans order False < True; the result is none exactly when the
deciding comparison would raise. -/
def pyLtTuple (t u : Bool × Bool × Bool × Int × Option Int) : Option Bool :=
  if t.1 ≠ u.1 then some (!t.1 && u.1)
  else if t.2.1 ≠ u.2.1 then some (!t.2.1 && u.2.1)
  else if t.2.2.1 ≠ u.2.2.1 then some (!t.2.2.1 && u.2.2.1)
  else if t.2.2.2.1 ≠ u.2.2.2.1 then some (decide (t.2.2.2.1 < u.2.2.2.1))
  else if t.2.2.2.2 = u.2.2.2.2 then some false
  else pyLtOptInt t.2.2.2.2 u.2.2.2.2

/-- Score.__lt__ through _score_tuple. -/
def Score.lt (a b : Score) : Option Bool := pyLtTuple a.scoreTuple b.scoreTuple

/-- Score.__eq__ through _score_tuple. -/
def Score.eqPy (a b : Score) : Bool := decide (a.scoreTuple = b.scoreTuple)

/-- Cp.__neg__, Mate.__neg__ and _MateGiven.__neg__. -/
def Score.neg : Score → Score
  | .cp n => .cp (-n)
  | .mate n => if n = 0 then .mateGiven else .mate (-n)
  | .mateGiven => .mate 0

/-- Sort key equivalent to the tuple order: scores fall into four groups
(non-positive mates, centipawns, positive mates, MateGiven) ordered by a
group index and an integer within the group. -/
def Score.key : Score → Int × Int
  | .cp n => (1, n)
  | .mate n => if 0 < n then (2, -n) else (0, -n)
  | .mateGiven => (3, 0)

/-- Proposition form of the tuple order. -/
def Score.ltKey (a b : Score) : Prop :=
  a.key.1 < b.key.1 ∨ (a.key.1 = b.key.1 ∧ a.key.2 < b.key.2)

instance (a b : Score) : Decidable (Score.ltKey a b) := by
  unfold Score.ltKey; infer_instance

theorem Score.lt_eq_key (a b : Score) :
    Score.lt a b = some (decide (Score.ltKey a b)) := by
  rcases a with n | n | _ <;> rcases b with m | m | _ <;>
    simp [Score.lt, Score.ltKey, Score.key, Score.scoreTuple, Score.isMate,
      Score.mateVal, Score.scoreVal, pyLtTuple, pyLtOptInt]
  all_goals try split_ifs
  all_goals try simp_all

theorem Score.eqPy_iff (a b : Score) : Score.eqPy a b = true ↔ a = b := by
  rcases a with n | n | _ <;> rcases b with m | m | _ <;>
    simp [Score.eqPy, Score.scoreTuple, Score.isMate, Score.mateVal,
      Score.scoreVal]
  all_goals omega

theorem Score.ltKey_neg (a b : Score) :
    Score.ltKey (Score.neg b) (Score.neg a) ↔ Score.ltKey a b := by
  rcases a with n | n | _ <;> rcases b with m | m | _ <;>
    simp only [Score.ltKey, Score.key, Score.neg]
  all_goals try split_ifs
  all_goals simp_all [Score.ltKey, Score.key]
  all_goals try split_ifs
  all_goals simp_all
  all_goals omega

theorem Score.ltKey_trichotomy (a b : Score) :
    (Score.ltKey a b ∧ a ≠ b ∧ ¬ Score.ltKey b a)
      ∨ (a = b ∧ ¬ Score.ltKey a b ∧ ¬ Score.ltKey b a)
      ∨ (Score.ltKey b a ∧ a ≠ b ∧ ¬ Score.ltKey a b) := by
  rcases a with n | n | _ <;> rcases b with m | m | _ <;>
    simp only [Score.ltKey, Score.key, ne_eq, Score.cp.injEq, Score.mate.injEq,
      reduceCtorEq, not_false_eq_true, and_true, true_and]
  all_goals try split_ifs
  all_goals simp_all
  all_goals omega

theorem Score.ltKey_trans (a b c : Score) :
    Score.ltKey a b → Score.ltKey b c → Score.ltKey a c := by
  rcases a with n | n | _ <;> rcases b with m | m | _ <;> rcases c with k | k | _ <;>
    simp only [Score.ltKey, Score.key]
  all_goals try split_ifs
  all_goals simp_all
  all_goals omega

/-- C3: the Score comparison never raises and is a total order: it is
trichotomous and transitive; it agrees with negation (`a < b` iff
`-b < -a`); `Mate(-k) < Mate(-(k+1)) < ... < Cp(x) < Cp(y) < Mate(n) <
... < Mate(1) < MateGiven` holds along the stated chain, with
`Mate(0) < Cp(x) < MateGiven` for every finite x, `Cp(x) < Cp(y)` iff
`x < y`, and `Mate(m) < Mate(n)` iff `m > n` for positive m, n. -/
theorem C3_score_order :
    (∀ a b : Score,
        (Score.lt a b = some true ∧ a ≠ b ∧ Score.lt b a = some false)
          ∨ (a = b ∧ Score.lt a b = some false ∧ Score.lt b a = some false)
          ∨ (Score.lt b a = some true ∧ a ≠ b ∧ Score.lt a b = some false)) ∧
    (∀ a b c : Score, Score.lt a b = some true → Score.lt b c = some true →
        Score.lt a c = some true) ∧
    (∀ a b : Score, Score.lt a b = Score.lt (Score.neg b) (Score.neg a)) ∧
    (∀ x : Int, Score.lt (.mate 0) (.cp x) = some true ∧
        Score.lt (.cp x) .mateGiven = some true) ∧
    (∀ x y : Int, Score.lt (.cp x) (.cp y) = some (decide (x < y))) ∧
    (∀ m n : Int, 0 < m → 0 < n →
        (Score.lt (.mate m) (.mate n) = some true ↔ n < m)) ∧
    (∀ k : Int, 0 ≤ k → Score.lt (.mate (-k)) (.mate (-(k + 1))) = some true) ∧
    (∀ k : Int, ∀ x : Int, 0 ≤ k → Score.lt (.mate (-k)) (.cp x) = some true) ∧
    (∀ n x : Int, 0 < n → Score.lt (.cp x) (.mate n) = some true) ∧
    (∀ n : Int, 0 < n → Score.lt (.mate (n + 1)) (.mate n) = some true) ∧
    (∀ n : Int, 0 < n → Score.lt (.mate n) .mateGiven = some true) := by
  have hkey := Score.lt_eq_key
  refine ⟨?_, ?_, ?_, ?_, ?_, ?_, ?_, ?_, ?_, ?_, ?_⟩
  · intro a b
    rcases Score.ltKey_trichotomy a b with ⟨h1, h2, h3⟩ | ⟨h1, h2, h3⟩ | ⟨h1, h2, h3⟩
    · exact Or.inl ⟨by simp [hkey, h1], h2, by simp [hkey, h3]⟩
    · exact Or.inr (Or.inl ⟨h1, by simp [hkey, h2], by simp [hkey, h3]⟩)
    · exact Or.inr (Or.inr ⟨by simp [hkey, h1], h2, by simp [hkey, h3]⟩)
  · intro a b c hab hbc
    simp only [hkey, Option.some.injEq, decide_eq_true_eq] at hab hbc ⊢
    exact Score.ltKey_trans a b c hab hbc
  · intro a b
    simp only [hkey, Option.some.injEq]
    simp [Score.ltKey_neg]
  · intro x
    constructor <;> simp [hkey, Score.ltKey, Score.key]
  · intro x y
    simp [hkey, Score.ltKey, Score.key]
  · intro m n hm hn
    simp [hkey, Score.ltKey, Score.key, hm, hn]
  · intro k hk
    simp only [hkey, Score.ltKey, Score.key, Option.some.injEq]
    split_ifs <;> simp <;> omega
  · intro k x hk
    simp only [hkey, Score.ltKey, Score.key, Option.some.injEq]
    split_ifs <;> simp <;> omega
  · intro n x hn
    simp [hkey, Score.ltKey, Score.key, hn]
  · intro n hn
    simp only [hkey, Score.ltKey, Score.key, Option.some.injEq]
    split_ifs <;> simp <;> omega
  · intro n hn
    simp [hkey, Score.ltKey, Score.key, hn]

/-- Witness for C3 at concrete scores: instantiates the ordering package at
Mate(3), Mate(1) and checks 1 < 3. -/
theorem C3_score_order_witness :
    Score.lt (.mate 3) (.mate 1) = some true :=
  (C3_score_order.2.2.2.2.2.1 3 1 (by decide) (by decide)).2 (by decide)

/-- Sample check option (shape of an engine-declared check option). -/
def sampleCheck : EngineOption :=
  { name := "Nullmove", type := "check", default := .bool true,
    min := none, max := none, var := none }

/-- Sample spin option (shape of the Hash option). -/
def sampleSpin : EngineOption :=
  { name := "Hash", type := "spin", default := .int 16,
    min := some 1, max := some 512, var := none }

/-- C7 counterexample: the empty raw value is not "false", yet a check
option parses it to itself, which is falsy — refuting the claim that every
raw value other than "false" parses to a truthy value. -/
theorem C7_counterexample :
    "" ≠ "false" ∧ sampleCheck.parse (.str "") = .ok (.str "") ∧
      pyTruthy (.str "") = false := by
  refine ⟨by decide, ?_, rfl⟩
  rfl

/-- Unfolding of Option.parse on a spin option. -/
theorem EngineOption.spin_parse_eq (o : EngineOption) (h : o.type = "spin") (v : Value) :
    o.parse v =
      (match pyInt v with
      | .error .valueError => .error .engineError
      | .error e => .error e
      | .ok n =>
        if (match o.min with | some m => decide (n < m) | none => false) then
          .error .engineError
        else if (match o.max with | some m => decide (m < n) | none => false) then
          .error .engineError
        else .ok (.int n)) := by
  have hc : o.type ≠ "check" := by rw [h]; decide
  simp [EngineOption.parse, hc, h]

/-- C7 amended: for check options every nonempty raw value other than
"false" parses truthy, while "false" and the empty value parse falsy (the
empty value is returned unchanged); spin options succeed exactly on integer
literals within the declared bounds and fail with an engine-error
otherwise; combo options with a variant list succeed exactly on members of
var; button/reset/save always give null; string/file/path fail with an
engine-error exactly when the value embeds a line break. -/
theorem C7_option_parse :
    (∀ o : EngineOption, o.type = "check" →
      (∀ s : String, s ≠ "" → s ≠ "false" → o.parse (.str s) = .ok (.bool true)) ∧
      o.parse (.str "false") = .ok (.bool false) ∧
      o.parse (.str "") = .ok (.str "")) ∧
    (∀ o : EngineOption, o.type = "spin" → ∀ (s : String) (v : Value),
      (o.parse (.str s) = .ok v ↔ ∃ n : Int, v = .int n ∧ pyIntOfString s = some n ∧
        (∀ m, o.min = some m → m ≤ n) ∧ (∀ m, o.max = some m → n ≤ m))) ∧
    (∀ o : EngineOption, o.type = "spin" → ∀ s : String,
      (∀ v, o.parse (.str s) ≠ .ok v) → o.parse (.str s) = .error .engineError) ∧
    (∀ (o : EngineOption) (vs : List String), o.type = "combo" → o.var = some vs →
      ∀ s : String, o.parse (.str s) =
        if s ∈ vs then .ok (.str s) else .error .engineError) ∧
    (∀ (o : EngineOption) (v : Value),
      (o.type = "button" ∨ o.type = "reset" ∨ o.type = "save") →
      o.parse v = .ok .null) ∧
    (∀ (o : EngineOption) (s : String),
      (o.type = "string" ∨ o.type = "file" ∨ o.type = "path") →
      o.parse (.str s) =
        if s.contains '\n' ∨ s.contains '\r' then .error .engineError
        else .ok (.str s)) := by
  refine ⟨?_, ?_, ?_, ?_, ?_, ?_⟩
  · intro o h
    refine ⟨?_, ?_, ?_⟩
    · intro s hne hfalse
      have ht : pyTruthy (.str s) = true := by
        simp [pyTruthy, hne]
      have he : pyEq (.str s) (.str "false") = false := by
        simp [pyEq, hfalse]
      simp [EngineOption.parse, h, ht, he]
    · simp [EngineOption.parse, h, pyTruthy, pyEq]
    · simp [EngineOption.parse, h, pyTruthy]
  · intro o h s v
    rw [EngineOption.spin_parse_eq o h]
    constructor
    · intro hp
      rcases hi : pyIntOfString s with _ | n
      · simp [pyInt, hi] at hp
      · simp only [pyInt, hi] at hp
        split_ifs at hp with h1 h2
        have hv : Value.int n = v := by injection hp
        refine ⟨n, hv.symm, rfl, ?_, ?_⟩
        · intro m hm
          rw [hm] at h1; simp at h1; omega
        · intro m hm
          rw [hm] at h2; simp at h2; omega
    · rintro ⟨n, rfl, hi, hmin, hmax⟩
      have h1 : (match o.min with | some m => decide (n < m) | none => false) = false := by
        rcases hm : o.min with _ | m
        · rfl
        · have := hmin m hm; simp; omega
      have h2 : (match o.max with | some m => decide (m < n) | none => false) = false := by
        rcases hm : o.max with _ | m
        · rfl
        · have := hmax m hm; simp; omega
      simp [pyInt, hi, h1, h2]
  · intro o h s hfail
    rw [EngineOption.spin_parse_eq o h] at hfail ⊢
    rcases hi : pyIntOfString s with _ | n
    · simp [pyInt, hi]
    · simp only [pyInt, hi] at hfail ⊢
      have hfn := hfail (.int n)
      split_ifs at hfn ⊢ with h1 h2
      · rfl
      · rfl
      · exact absurd rfl hfn
  · intro o vs h hv s
    have hc : o.type ≠ "check" := by rw [h]; decide
    have hs : o.type ≠ "spin" := by rw [h]; decide
    simp only [EngineOption.parse, hc, hs, h, hv, reduceIte, Option.getD_some]
    by_cases hmem : s ∈ vs <;> simp [pyStr, hmem]
  · intro o v h
    rcases h with h | h | h <;> simp [EngineOption.parse, h]
  · intro o s h
    rcases h with h | h | h <;> simp [EngineOption.parse, h, pyStr] <;>
      split_ifs <;> simp_all

/-- Witness for C7 amended: a nonempty non-"false" raw value on the sample
check option parses to True, and "127" parses on the sample spin option. -/
theorem C7_option_parse_witness :
    sampleCheck.parse (.str "on") = .ok (.bool true) ∧
      sampleSpin.parse (.str "127") = .ok (.int 127) := by
  constructor
  · exact (C7_option_parse.1 sampleCheck rfl).1 "on" (by decide) (by decide)
  · exact ((C7_option_parse.2.1 sampleSpin rfl "127" (.int 127)).2
      ⟨127, rfl, by decide,
        by intro m hm; simp [sampleSpin] at hm; omega,
        by intro m hm; simp [sampleSpin] at hm; omega⟩)

/-- C9: on any value a parse accepts, parse is idempotent — the parsed
result, fed back to parse, is returned unchanged. -/
theorem C9_parse_idempotent (o : EngineOption) (v w : Value)
    (h : o.parse v = .ok w) : o.parse w = .ok w := by
  by_cases hc : o.type = "check"
  · simp only [EngineOption.parse, hc, reduceIte] at h ⊢
    rcases ht : pyTruthy v with _ | _ <;> simp [ht] at h <;> subst h
    · simp [ht]
    · rcases hq : pyEq v (.str "false") with _ | _ <;> simp [hq, pyTruthy, pyEq]
  all_goals by_cases hs : o.type = "spin"
  · simp only [EngineOption.parse, hc, hs, reduceIte] at h ⊢
    rcases hi : pyInt v with e | n <;> simp [hi] at h
    · rcases e <;> simp_all
    · split_ifs at h with h1 h2 <;> simp_all
      subst h
      simp [pyInt, h1, h2]
  all_goals by_cases hcombo : o.type = "combo"
  · have hrw : ∀ u, o.parse u =
        (if pyStr u ∈ o.var.getD [] then .ok (.str (pyStr u))
         else match o.var with
           | some _ => .error .engineError
           | none => .error .typeError) := by
      intro u
      simp [EngineOption.parse, hc, hs, hcombo]
    rw [hrw] at h
    split_ifs at h with h1
    · cases h
      rw [hrw]
      simp only [pyStr] at h1 ⊢
      simp [h1]
    · rcases hv : o.var with _ | vs <;> rw [hv] at h <;> simp at h
  all_goals by_cases hb : o.type = "button" ∨ o.type = "reset" ∨ o.type = "save"
  · have : o.parse v = .ok .null := by
      rcases hb with h1 | h1 | h1 <;> simp [EngineOption.parse, hc, hs, hcombo, h1]
    rw [this] at h
    cases h
    rcases hb with h1 | h1 | h1 <;> simp [EngineOption.parse, hc, hs, hcombo, h1]
  all_goals by_cases hstr : o.type = "string" ∨ o.type = "file" ∨ o.type = "path"
  · have hrw : ∀ u : Value, o.parse u =
        (if (pyStr u).contains '\n' ∨ (pyStr u).contains '\r' then .error .engineError
         else .ok (.str (pyStr u))) := by
      intro u
      rcases hstr with h1 | h1 | h1 <;>
        simp [EngineOption.parse, hc, hs, hcombo, h1, hb]
    rw [hrw] at h
    split_ifs at h with h1
    cases h
    rw [hrw]
    rcases not_or.mp h1 with ⟨h1a, h1b⟩
    simp only [Bool.not_eq_true, pyStr] at h1a h1b
    simp [pyStr, h1a, h1b]
  · exfalso
    simp only [EngineOption.parse, hc, hs, hcombo] at h
    have hrest : ¬ (o.type = "button" ∨ o.type = "reset" ∨ o.type = "save") := hb
    simp [hrest, hstr] at h

/-- Witness for C9 at the sample spin option: parse("7") = 7 and parse(7)
returns 7 unchanged. -/
theorem C9_parse_idempotent_witness : sampleSpin.parse (.int 7) = .ok (.int 7) :=
  C9_parse_idempotent sampleSpin (.str "7") (.int 7) (by rfl)

/-- Python str.lower, character-wise on the decoded characters (ASCII
fragment of CPython's unicode lowering; engine option names are ASCII). -/
def pyLower (s : String) : String := ⟨s.data.map Char.toLower⟩

/-- Python dict assignment on an ordered association list: an existing key
is updated in place keeping its position, a new key is appended. The store
maps a lowered key to the pair (original-casing key, value). -/
def dictSet {α : Type} (l : List (String × String × α)) (lk : String) (kv : String × α) :
    List (String × String × α) :=
  match l with
  | [] => [(lk, kv)]
  | (k, p) :: rest => if k = lk then (k, kv) :: rest else (k, p) :: dictSet rest lk kv

/-- Python dict lookup. -/
def dictGet {α : Type} (l : List (String × String × α)) (lk : String) : Option (String × α) :=
  match l with
  | [] => none
  | (k, p) :: rest => if k = lk then some p else dictGet rest lk

/-- UciOptionMap: dictionary with case-insensitive keys, backed by the
dict _store from canonical lowered key to (original-casing key, value). -/
structure UciOptionMap (α : Type) where
  store : List (String × String × α)
deriving DecidableEq, Repr

/-- UciOptionMap.__setitem__: self._store[key.lower()] = (key, value). -/
def UciOptionMap.set {α : Type} (m : UciOptionMap α) (key : String) (value : α) :
    UciOptionMap α :=
  ⟨dictSet m.store (pyLower key) (key, value)⟩

/-- UciOptionMap.__getitem__: self._store[key.lower()][1]; none models the
KeyError on a missing key. -/
def UciOptionMap.get {α : Type} (m : UciOptionMap α) (key : String) : Option α :=
  (dictGet m.store (pyLower key)).map Prod.snd

/-- Key membership, as the MutableMapping __contains__ derives it from
__getitem__. -/
def UciOptionMap.hasKey {α : Type} (m : UciOptionMap α) (key : String) : Bool :=
  (m.get key).isSome

/-- UciOptionMap.__iter__: the original-casing keys in store order. -/
def UciOptionMap.iterKeys {α : Type} (m : UciOptionMap α) : List String :=
  m.store.map fun e => e.2.1

/-- UciOptionMap.copy: type(self)(self._store.values()) rebuilds the map by
assigning each (original-casing key, value) pair in iteration order. -/
def UciOptionMap.copy {α : Type} (m : UciOptionMap α) : UciOptionMap α :=
  m.store.foldl (fun acc e => acc.set e.2.1 e.2.2) ⟨[]⟩

/-- The empty UciOptionMap. -/
def UciOptionMap.empty {α : Type} : UciOptionMap α := ⟨[]⟩

/-- Stores reachable by __setitem__ from an empty map: every entry's
canonical key is the lowering of its original-casing key, and canonical
keys are pairwise distinct. -/
def UciOptionMap.WF {α : Type} (m : UciOptionMap α) : Prop :=
  (∀ e ∈ m.store, e.1 = pyLower e.2.1) ∧ (m.store.map fun e => e.1).Nodup

theorem dictGet_dictSet_same {α : Type} (l : List (String × String × α)) (lk : String)
    (kv : String × α) : dictGet (dictSet l lk kv) lk = some kv := by
  induction l with
  | nil => simp [dictSet, dictGet]
  | cons e rest ih =>
    obtain ⟨k, p⟩ := e
    by_cases h : k = lk <;> simp [dictSet, dictGet, h, ih]

theorem dictGet_dictSet_other {α : Type} (l : List (String × String × α)) (lk lk' : String)
    (kv : String × α) (h : lk' ≠ lk) : dictGet (dictSet l lk kv) lk' = dictGet l lk' := by
  have hne : ¬ lk = lk' := fun hc => h hc.symm
  induction l with
  | nil => simp [dictSet, dictGet, hne]
  | cons e rest ih =>
    obtain ⟨k, p⟩ := e
    by_cases hk : k = lk
    · subst hk
      simp [dictSet, dictGet, hne]
    · simp [dictSet, dictGet, hk, ih]

theorem dictSet_notMem {α : Type} (l : List (String × String × α)) (lk : String)
    (kv : String × α) (h : lk ∉ l.map fun e => e.1) : dictSet l lk kv = l ++ [(lk, kv)] := by
  induction l with
  | nil => simp [dictSet]
  | cons e rest ih =>
    obtain ⟨k, p⟩ := e
    simp only [List.map_cons, List.mem_cons, not_or] at h
    have hne : ¬ k = lk := fun hc => h.1 hc.symm
    simp [dictSet, hne, ih h.2]

theorem dictGet_mem {α : Type} (l : List (String × String × α)) (lk : String)
    (p : String × α) (h : dictGet l lk = some p) : (lk, p) ∈ l := by
  induction l with
  | nil => simp [dictGet] at h
  | cons e rest ih =>
    obtain ⟨k, q⟩ := e
    by_cases hk : k = lk
    · subst hk
      have h' : q = p := by simpa [dictGet] using h
      subst h'
      exact List.mem_cons_self _ _
    · simp only [dictGet, if_neg hk] at h
      simp [ih h]

theorem dictSet_entries {α : Type} (l : List (String × String × α)) (lk : String)
    (kv : String × α) :
    ∀ e ∈ dictSet l lk kv, e = (lk, kv) ∨ e ∈ l := by
  induction l with
  | nil =>
    intro e he
    simp only [dictSet, List.mem_singleton] at he
    exact Or.inl he
  | cons f rest ih =>
    obtain ⟨k, p⟩ := f
    intro e he
    by_cases h : k = lk
    · subst h
      have he' : e ∈ (k, kv) :: rest := by simpa [dictSet] using he
      rcases List.mem_cons.mp he' with h1 | h1
      · exact Or.inl h1
      · exact Or.inr (List.mem_cons.mpr (Or.inr h1))
    · have he' : e ∈ (k, p) :: dictSet rest lk kv := by simpa [dictSet, h] using he
      rcases List.mem_cons.mp he' with h1 | h1
      · exact Or.inr (List.mem_cons.mpr (Or.inl h1))
      · rcases ih e h1 with h2 | h2
        · exact Or.inl h2
        · exact Or.inr (List.mem_cons.mpr (Or.inr h2))

theorem entries_key_unique {α : Type} (l : List (String × String × α))
    (hnd : (l.map fun e => e.1).Nodup) :
    ∀ e ∈ l, ∀ f ∈ l, e.1 = f.1 → e = f := by
  induction l with
  | nil => simp
  | cons g rest ih =>
    simp only [List.map_cons, List.nodup_cons] at hnd
    intro e he f hf hef
    rcases List.mem_cons.mp he with he1 | he1 <;> rcases List.mem_cons.mp hf with hf1 | hf1
    · rw [he1, hf1]
    · exfalso
      apply hnd.1
      have hm : f.1 ∈ rest.map fun x => x.1 := List.mem_map.mpr ⟨f, hf1, rfl⟩
      rw [he1] at hef
      rw [hef]
      exact hm
    · exfalso
      apply hnd.1
      have hm : e.1 ∈ rest.map fun x => x.1 := List.mem_map.mpr ⟨e, he1, rfl⟩
      rw [hf1] at hef
      rw [← hef]
      exact hm
    · exact ih hnd.2 e he1 f hf1 hef

theorem dictSet_keys {α : Type} (l : List (String × String × α)) (lk : String)
    (kv : String × α) (h : lk ∈ l.map fun e => e.1) :
    ((dictSet l lk kv).map fun e => e.1) = l.map fun e => e.1 := by
  induction l with
  | nil => simp at h
  | cons e rest ih =>
    obtain ⟨k, p⟩ := e
    by_cases hk : k = lk
    · simp [dictSet, hk]
    · simp only [List.map_cons, List.mem_cons] at h
      rcases h with h | h
      · exact absurd h.symm hk
      · simp [dictSet, hk, ih h]

theorem UciOptionMap.set_WF {α : Type} (m : UciOptionMap α) (k : String) (v : α)
    (hwf : m.WF) : (m.set k v).WF := by
  obtain ⟨h1, h2⟩ := hwf
  constructor
  · intro e he
    rcases dictSet_entries m.store (pyLower k) (k, v) e he with rfl | he'
    · rfl
    · exact h1 e he'
  · by_cases hmem : pyLower k ∈ m.store.map fun e => e.1
    · rw [UciOptionMap.set, dictSet_keys m.store _ _ hmem]
      exact h2
    · rw [UciOptionMap.set, dictSet_notMem m.store _ _ hmem]
      simp only [List.map_append, List.map_cons, List.map_nil]
      exact List.Nodup.append h2 (by simp) (by simpa [List.disjoint_right] using hmem)

theorem UciOptionMap.copy_store {α : Type} (l : List (String × String × α)) :
    ∀ acc : List (String × String × α),
    (∀ e ∈ l, e.1 = pyLower e.2.1) →
    (∀ e ∈ l, e.1 ∉ acc.map fun f => f.1) →
    (l.map fun e => e.1).Nodup →
    l.foldl (fun (a : UciOptionMap α) e => a.set e.2.1 e.2.2) ⟨acc⟩ = ⟨acc ++ l⟩ := by
  induction l with
  | nil =>
    intro acc _ _ _
    simp
  | cons e rest ih =>
    intro acc hl hdisj hnd
    obtain ⟨k, ko, vv⟩ := e
    have hk : k = pyLower ko := hl _ (List.mem_cons_self _ _)
    have hnotin : k ∉ acc.map fun f => f.1 := hdisj _ (List.mem_cons_self _ _)
    have hstep : (UciOptionMap.mk acc).set ko vv = ⟨acc ++ [(k, ko, vv)]⟩ := by
      rw [UciOptionMap.set, dictSet_notMem]
      · rw [hk]
      · rw [← hk]
        exact hnotin
    have hnd0 : k ∉ (rest.map fun e => e.1) ∧ ((rest.map fun e => e.1)).Nodup := by
      rw [List.map_cons, List.nodup_cons] at hnd
      exact hnd
    have hl' : ∀ f ∈ rest, f.1 = pyLower f.2.1 := fun f hf => hl f (List.mem_cons_of_mem _ hf)
    have hdisj' : ∀ f ∈ rest, f.1 ∉ (acc ++ [(k, ko, vv)]).map fun g => g.1 := by
      intro f hf
      simp only [List.map_append, List.mem_append, List.map_cons, List.map_nil,
        List.mem_singleton, not_or]
      refine ⟨hdisj f (List.mem_cons_of_mem _ hf), ?_⟩
      intro hc
      exact hnd0.1 (hc ▸ List.mem_map.mpr ⟨f, hf, rfl⟩)
    calc ((k, ko, vv) :: rest).foldl (fun (a : UciOptionMap α) e => a.set e.2.1 e.2.2) ⟨acc⟩
        = rest.foldl (fun (a : UciOptionMap α) e => a.set e.2.1 e.2.2)
            ((UciOptionMap.mk acc).set ko vv) := by simp
      _ = ⟨(acc ++ [(k, ko, vv)]) ++ rest⟩ := by
            rw [hstep]
            exact ih _ hl' hdisj' hnd0.2
      _ = ⟨acc ++ (k, ko, vv) :: rest⟩ := by simp

/-- C8: the UCI option map is case-insensitive with casing preservation:
lookup under any casing of a key returns the value stored for it;
iteration yields, for each key, exactly the casing used by the most recent
set of that key; and copy() returns a map equal to the original in both
mapping and iteration casing. -/
theorem C8_uci_option_map {α : Type} :
    (∀ (m : UciOptionMap α) (k k' : String) (v : α), pyLower k' = pyLower k →
        (m.set k v).get k' = some v) ∧
    (∀ (m : UciOptionMap α) (k k' : String), pyLower k = pyLower k' →
        m.get k = m.get k') ∧
    (∀ (m : UciOptionMap α) (k : String) (v : α), m.WF →
        k ∈ (m.set k v).iterKeys ∧
        ∀ k'' ∈ (m.set k v).iterKeys, pyLower k'' = pyLower k → k'' = k) ∧
    (∀ m : UciOptionMap α, m.WF → m.copy = m) := by
  refine ⟨?_, ?_, ?_, ?_⟩
  · intro m k k' v h
    simp [UciOptionMap.get, UciOptionMap.set, h, dictGet_dictSet_same]
  · intro m k k' h
    simp [UciOptionMap.get, h]
  · intro m k v hwf
    have hmem : (pyLower k, k, v) ∈ (m.set k v).store :=
      dictGet_mem _ _ _ (dictGet_dictSet_same m.store (pyLower k) (k, v))
    constructor
    · exact List.mem_map.mpr ⟨(pyLower k, k, v), hmem, rfl⟩
    · intro k'' hk'' hlow
      obtain ⟨e, he, hek⟩ := List.mem_map.mp hk''
      have hwf' := UciOptionMap.set_WF m k v hwf
      have he1 : e.1 = pyLower k := by rw [hwf'.1 e he, hek, hlow]
      have heq := entries_key_unique _ hwf'.2 e he (pyLower k, k, v) hmem (by simp [he1])
      rw [← hek, heq]
  · intro m hwf
    have := UciOptionMap.copy_store m.store [] hwf.1 (by simp) hwf.2
    simpa [UciOptionMap.copy] using this

/-- Witness for C8: a value stored under "Hash" is found under "hASH",
holds the latest casing in iteration, and survives copy, on a concrete
two-entry map. -/
theorem C8_uci_option_map_witness :
    ((UciOptionMap.empty.set "Threads" (Value.int 1)).set "Hash" (.int 16)).get "hASH"
        = some (.int 16) ∧
      (UciOptionMap.empty.set "Threads" (Value.int 1)).copy
        = UciOptionMap.empty.set "Threads" (Value.int 1) := by
  constructor
  · exact C8_uci_option_map.1 (UciOptionMap.empty.set "Threads" (Value.int 1))
      "Hash" "hASH" (.int 16) (by decide)
  · exact C8_uci_option_map.2.2.2 (UciOptionMap.empty.set "Threads" (Value.int 1))
      ⟨by decide, by decide⟩

/-- State of the UCI protocol relevant to option setting: the engine's
advertised options and the caller-applied configuration overrides. -/
structure UciState where
  options : UciOptionMap EngineOption
  config : UciOptionMap Value
deriving DecidableEq, Repr

/-- UciProtocol._getoption with its default argument left at None: the
config override when present, else the advertised option's declared
default, else None. -/
def UciState.getoption (st : UciState) (name : String) : Value :=
  match st.config.get name with
  | some v => v
  | none =>
    match st.options.get name with
    | some o => o.default
    | none => .null

/-- Rendering of one setoption line, as built in _setoption: False and True
render as value false/value true, None renders without a value part. -/
def setoptionLine (name : String) (v : Value) : String :=
  match v with
  | .bool false => "setoption name " ++ name ++ " value false"
  | .bool true => "setoption name " ++ name ++ " value true"
  | .null => "setoption name " ++ name
  | v => "setoption name " ++ name ++ " value " ++ pyStr v

/-- UciProtocol._setoption: parse the value against the advertised option
(the KeyError on an unknown name becomes an EngineError); if the parsed
value is None or differs from the current effective value, send one
setoption line and record the parsed value in config, else do nothing.
Returns the updated state and the lines written to the transport. -/
def UciState.setoption (st : UciState) (name : String) (value : Value) :
    Except PyErr (UciState × List String) :=
  match st.options.get name with
  | none => .error .engineError
  | some o =>
    match o.parse value with
    | .error e => .error e
    | .ok v =>
      if v = .null ∨ pyEq v (st.getoption name) = false then
        .ok ({ st with config := st.config.set name v }, [setoptionLine name v])
      else
        .ok (st, [])

theorem pyEq_refl (v : Value) : pyEq v v = true := by
  rcases v with s | n | b | _ <;> simp [pyEq]

/-- C10: for an advertised option, when the parsed value is non-null and
equals the current effective value (config override, else declared
default), _setoption writes nothing and leaves the state unchanged;
otherwise — in particular always for null (button) values — it sends
exactly one setoption line and records the parsed value in config; hence
configuring the same value twice writes to the wire at most once. -/
theorem C10_setoption_frame (st : UciState) (name : String) (value : Value)
    (o : EngineOption) (v : Value)
    (ho : st.options.get name = some o) (hp : o.parse value = .ok v) :
    (v ≠ .null → pyEq v (st.getoption name) = true →
      st.setoption name value = .ok (st, [])) ∧
    ((v = .null ∨ pyEq v (st.getoption name) = false) →
      st.setoption name value =
        .ok ({ st with config := st.config.set name v }, [setoptionLine name v])) ∧
    (v ≠ .null → ∀ st' lines, st.setoption name value = .ok (st', lines) →
      st'.setoption name value = .ok (st', [])) := by
  refine ⟨?_, ?_, ?_⟩
  · intro hnull heq
    have hcond : ¬ (v = .null ∨ pyEq v (st.getoption name) = false) := by
      simp [hnull, heq]
    simp [UciState.setoption, ho, hp, hcond]
  · intro hcond
    simp [UciState.setoption, ho, hp, hcond]
  · intro hnull st' lines hfirst
    simp only [UciState.setoption, ho, hp] at hfirst
    by_cases hcond : v = .null ∨ pyEq v (st.getoption name) = false
    · rw [if_pos hcond] at hfirst
      have hst' : st' = { st with config := st.config.set name v } := by
        cases hfirst; rfl
      subst hst'
      have hopt : ({ st with config := st.config.set name v } : UciState).options.get name
          = some o := ho
      have hgo : ({ st with config := st.config.set name v } : UciState).getoption name = v := by
        simp [UciState.getoption, UciOptionMap.get, UciOptionMap.set,
          dictGet_dictSet_same]
      have hcond2 : ¬ (v = .null ∨
          pyEq v (({ st with config := st.config.set name v } : UciState).getoption name)
            = false) := by
        simp [hnull, hgo, pyEq_refl]
      simp [UciState.setoption, hopt, hp, hcond2]
    · rw [if_neg hcond] at hfirst
      have hst' : st' = st := by cases hfirst; rfl
      subst hst'
      simp [UciState.setoption, ho, hp, hcond]

/-- Sample protocol state: the engine advertises Hash; no overrides yet. -/
def sampleState : UciState :=
  { options := UciOptionMap.empty.set "Hash" sampleSpin, config := UciOptionMap.empty }

/-- Witness for C10: re-sending the declared default of Hash writes
nothing, while a new value writes exactly one line. -/
theorem C10_setoption_frame_witness :
    sampleState.setoption "Hash" (.str "16") = .ok (sampleState, []) ∧
    sampleState.setoption "Hash" (.str "200") =
      .ok ({ sampleState with config := sampleState.config.set "Hash" (.int 200) },
        [setoptionLine "Hash" (.int 200)]) := by
  constructor
  · exact (C10_setoption_frame sampleState "Hash" (.str "16") sampleSpin (.int 16)
      (by decide) (by rfl)).1 (by decide) (by decide)
  · exact (C10_setoption_frame sampleState "Hash" (.str "200") sampleSpin (.int 200)
      (by decide) (by rfl)).2.1 (by decide)

/-- Info selector flags (the Info IntFlag). -/
def INFO_BASIC : Nat := 1
/-- Info selector flag for scores. -/
def INFO_SCORE : Nat := 2
/-- Info selector flag for principal variations. -/
def INFO_PV : Nat := 4
/-- Info selector flag for refutations. -/
def INFO_REFUTATION : Nat := 8
/-- Info selector flag for current lines. -/
def INFO_CURRLINE : Nat := 16
/-- All info selector flags. -/
def INFO_ALL : Nat := 31

/-- PovScore: a relative score paired with the point of view (the root
board's side to move; true is white). -/
structure PovScore where
  relative : Score
  turn : Bool
deriving DecidableEq, Repr

/-- Python float() on a string, for plain decimal literals (optional sign,
digits, optional fractional part). Exponents, inf and nan, which CPython
also accepts, are outside the modelled fragment. -/
def pyFloatOfString (s : String) : Option Rat :=
  let cs := ((s.toList.dropWhile isPySpace).reverse.dropWhile isPySpace).reverse
  let signed : Rat × List Char :=
    match cs with
    | '-' :: rest => (-1, rest)
    | '+' :: rest => (1, rest)
    | rest => (1, rest)
  match signed.2.splitOn '.' with
  | [ip, fp] =>
    if (ip ≠ [] ∨ fp ≠ []) ∧ ip.all Char.isDigit ∧ fp.all Char.isDigit then
      some (signed.1 * ((digitsVal ip : Rat) + (digitsVal fp : Rat) / ((10 : Rat) ^ fp.length)))
    else none
  | [ip] =>
    if ip ≠ [] ∧ ip.all Char.isDigit then some (signed.1 * (digitsVal ip : Rat))
    else none
  | _ => none

/-- Assignment on an ordered association list with Python dict semantics. -/
def assocSet {κ α : Type} [DecidableEq κ] (l : List (κ × α)) (k : κ) (v : α) :
    List (κ × α) :=
  match l with
  | [] => [(k, v)]
  | (k0, v0) :: rest => if k0 = k then (k0, v) :: rest else (k0, v0) :: assocSet rest k v

/-- One parsed info dictionary. A field is absent until its key is stored.
time is stored in seconds as the exact rational int(token)/1000; moves are
identified with their UCI strings. -/
structure UciInfo where
  depth : Option Int := none
  seldepth : Option Int := none
  time : Option Rat := none
  nodes : Option Int := none
  pv : Option (List String) := none
  multipv : Option Int := none
  score : Option PovScore := none
  lowerbound : Option Bool := none
  upperbound : Option Bool := none
  currmove : Option String := none
  currmovenumber : Option Int := none
  hashfull : Option Int := none
  nps : Option Int := none
  tbhits : Option Int := none
  cpuload : Option Int := none
  refutation : List (String × List String) := []
  currline : List (Int × List String) := []
  ebf : Option Rat := none
  string : Option String := none
deriving DecidableEq, Repr

/-- Store one of the plain integer info fields by its keyword. -/
def setIntField (i : UciInfo) (name : String) (n : Int) : UciInfo :=
  if name = "depth" then { i with depth := some n }
  else if name = "seldepth" then { i with seldepth := some n }
  else if name = "nodes" then { i with nodes := some n }
  else if name = "multipv" then { i with multipv := some n }
  else if name = "currmovenumber" then { i with currmovenumber := some n }
  else if name = "hashfull" then { i with hashfull := some n }
  else if name = "nps" then { i with nps := some n }
  else if name = "tbhits" then { i with tbhits := some n }
  else if name = "cpuload" then { i with cpuload := some n }
  else i

/-- Keywords recognised by _parse_uci_info. -/
def uciInfoKeywords : List String :=
  ["depth", "seldepth", "time", "nodes", "pv", "multipv", "score", "currmove",
   "currmovenumber", "hashfull", "nps", "tbhits", "cpuload", "refutation",
   "currline", "ebf", "string"]

/-- Accumulator state of _parse_uci_info apart from current_parameter and
the string tokens: the info dict under construction and the variable-length
accumulators. The replay board (a copy of the root board) is represented by
the list of moves accepted so far from the root; none models board = None. -/
structure PAccum where
  info : UciInfo := {}
  hist : Option (List String) := none
  pv : Option (List String) := none
  scoreKind : Option String := none
  refutMove : Option String := none
  refutedBy : List String := []
  currlineCpu : Option Int := none
  currlineMoves : List String := []
deriving DecidableEq, Repr

/-- Full parser state: accumulators, current_parameter, string tokens. -/
structure PState where
  acc : PAccum := {}
  cur : Option String := none
  stringToks : List String := []
deriving DecidableEq, Repr

/-- end_of_parameter: commit the variable-length accumulators to the dict. -/
def endOfParameter (a : PAccum) : PAccum :=
  let i1 := match a.pv with
    | some l => { a.info with pv := some l }
    | none => a.info
  let i2 := match a.refutMove with
    | some m => { i1 with refutation := assocSet i1.refutation m a.refutedBy }
    | none => i1
  let i3 := match a.currlineCpu with
    | some c => { i2 with currline := assocSet i2.currline c a.currlineMoves }
    | none => i2
  { a with info := i3 }

/-- The value-consuming elif chain of the _parse_uci_info loop (every
branch after the keyword branch). These branches read and write only the
accumulators, never current_parameter or the string list, which is why they
act on PAccum. push h t tells whether the external board accepts UCI move t
after replaying the moves h from the root (board.push_uci); fromUci models
the board-free Move.from_uci; turn is the root board side to move. Parse
failures are logged by the source and leave the state unchanged here. -/
def infoStepValue (push : List String → String → Bool) (fromUci : String → Bool)
    (turn : Bool) (selector : Nat) (cur : Option String) (a : PAccum)
    (token : String) : PAccum :=
  if cur = some "depth" ∨ cur = some "seldepth" ∨ cur = some "nodes" ∨
      cur = some "multipv" ∨ cur = some "currmovenumber" ∨
      cur = some "hashfull" ∨ cur = some "nps" ∨ cur = some "tbhits" ∨
      cur = some "cpuload" then
    match pyIntOfString token with
    | some n => { a with info := setIntField a.info (cur.getD "") n }
    | none => a
  else if cur = some "time" then
    match pyIntOfString token with
    | some n => { a with info := { a.info with time := some ((n : Rat) / 1000) } }
    | none => a
  else if cur = some "pv" ∧ a.pv.isSome then
    match a.hist with
    | some h =>
      if push h token then
        { a with pv := some (a.pv.getD [] ++ [token]), hist := some (h ++ [token]) }
      else a
    | none => a
  else if cur = some "score" ∧ selector.land INFO_SCORE ≠ 0 then
    if token = "cp" ∨ token = "mate" then { a with scoreKind := some token }
    else if token = "lowerbound" then
      { a with info := { a.info with lowerbound := some true } }
    else if token = "upperbound" then
      { a with info := { a.info with upperbound := some true } }
    else if a.scoreKind = some "cp" then
      match pyIntOfString token with
      | some n => { a with info := { a.info with score := some ⟨.cp n, turn⟩ } }
      | none => a
    else if a.scoreKind = some "mate" then
      match pyIntOfString token with
      | some n => { a with info := { a.info with score := some ⟨.mate n, turn⟩ } }
      | none => a
    else a
  else if cur = some "currmove" then
    if fromUci token then { a with info := { a.info with currmove := some token } }
    else a
  else if cur = some "refutation" then
    match a.hist with
    | some h =>
      if push h token then
        match a.refutMove with
        | none => { a with refutMove := some token, hist := some (h ++ [token]) }
        | some _ =>
          { a with refutedBy := a.refutedBy ++ [token], hist := some (h ++ [token]) }
      else a
    | none => a
  else if cur = some "currline" then
    match a.hist with
    | some h =>
      match a.currlineCpu with
      | none =>
        match pyIntOfString token with
        | some c => { a with currlineCpu := some c }
        | none => a
      | some _ =>
        if push h token then
          { a with currlineMoves := a.currlineMoves ++ [token], hist := some (h ++ [token]) }
        else a
    | none => a
  else if cur = some "ebf" then
    match pyFloatOfString token with
    | some q => { a with info := { a.info with ebf := some q } }
    | none => a
  else a

/-- One token of the _parse_uci_info loop: in string mode every token is
collected verbatim; empty tokens are skipped; a keyword commits the pending
variable-length parameter, becomes current_parameter and resets the
accumulators (initialising the replay board and pv list as the selector
directs); any other token is consumed by the value branch chain. -/
def infoStep (push : List String → String → Bool) (fromUci : String → Bool)
    (turn : Bool) (selector : Nat) (st : PState) (token : String) : PState :=
  if st.cur = some "string" then
    { st with stringToks := st.stringToks ++ [token] }
  else if token = "" then
    st
  else if token ∈ uciInfoKeywords then
    let a1 := endOfParameter st.acc
    let a2 := { a1 with
      hist := none, pv := none, scoreKind := none, refutMove := none,
      refutedBy := [], currlineCpu := none, currlineMoves := [] }
    let a3 :=
      if token = "pv" ∧ selector.land INFO_PV ≠ 0 then
        { a2 with pv := some [], hist := some [] }
      else if token = "refutation" ∧ selector.land INFO_REFUTATION ≠ 0 then
        { a2 with hist := some [] }
      else if token = "currline" ∧ selector.land INFO_CURRLINE ≠ 0 then
        { a2 with hist := some [] }
      else a2
    { st with acc := a3, cur := some token }
  else
    { st with acc := infoStepValue push fromUci turn selector st.cur st.acc token }

/-- _parse_uci_info on the token list of the argument after the info
keyword: fold the token step from the empty state, commit the trailing
variable-length parameter, and join the string tokens verbatim. An empty
selector returns the empty dict at once. -/
def parseUciInfoTokens (push : List String → String → Bool) (fromUci : String → Bool)
    (turn : Bool) (selector : Nat) (tokens : List String) : UciInfo :=
  if selector = 0 then {} else
  let st := tokens.foldl (infoStep push fromUci turn selector) {}
  let final := endOfParameter st.acc
  if st.stringToks ≠ [] then
    { final.info with string := some (String.intercalate " " st.stringToks) }
  else final.info

/-- _parse_uci_info itself: the argument is tokenised by splitting on
single spaces, as arg.split(" ") does. -/
def parseUciInfo (push : List String → String → Bool) (fromUci : String → Bool)
    (turn : Bool) (selector : Nat) (arg : String) : UciInfo :=
  parseUciInfoTokens push fromUci turn selector (arg.splitOn " ")

theorem intLit_not_keyword (s : String) (n : Int) (h : pyIntOfString s = some n) :
    s ∉ uciInfoKeywords := by
  intro hmem
  have hall : uciInfoKeywords.all (fun k => (pyIntOfString k).isNone) = true := by decide
  have := List.all_eq_true.mp hall s hmem
  rw [h] at this
  cases this

theorem intLit_ne (s : String) (n : Int) (h : pyIntOfString s = some n) (t : String)
    (ht : pyIntOfString t = none) : s ≠ t := by
  rintro rfl
  rw [h] at ht
  cases ht

theorem intLit_ne_empty (s : String) (n : Int) (h : pyIntOfString s = some n) : s ≠ "" :=
  intLit_ne s n h "" (by decide)

theorem infoStep_stringMode (push : List String → String → Bool) (fromUci : String → Bool)
    (turn : Bool) (selector : Nat) (st : PState) (t : String) (h : st.cur = some "string") :
    infoStep push fromUci turn selector st t = { st with stringToks := st.stringToks ++ [t] } := by
  simp [infoStep, h]

theorem foldl_stringMode (push : List String → String → Bool) (fromUci : String → Bool)
    (turn : Bool) (selector : Nat) (toks : List String) :
    ∀ st : PState, st.cur = some "string" →
    toks.foldl (infoStep push fromUci turn selector) st
      = { st with stringToks := st.stringToks ++ toks } := by
  induction toks with
  | nil =>
    intro st h
    simp
  | cons t rest ih =>
    intro st h
    rw [List.foldl_cons, infoStep_stringMode push fromUci turn selector st t h,
      ih _ (by simp [h])]
    simp

theorem infoStep_keyword (push : List String → String → Bool) (fromUci : String → Bool)
    (turn : Bool) (selector : Nat) (st : PState) (t : String)
    (hcur : ¬ st.cur = some "string") (hkw : t ∈ uciInfoKeywords) (hne : ¬ t = "") :
    (infoStep push fromUci turn selector st t).cur = some t ∧
    (infoStep push fromUci turn selector st t).stringToks = st.stringToks := by
  unfold infoStep
  rw [if_neg hcur, if_neg hne, if_pos hkw]
  exact ⟨rfl, rfl⟩

theorem infoStep_preserves (push : List String → String → Bool) (fromUci : String → Bool)
    (turn : Bool) (selector : Nat) (st : PState) (t : String)
    (hcur : ¬ st.cur = some "string") (hkw : t ∉ uciInfoKeywords) :
    (infoStep push fromUci turn selector st t).cur = st.cur ∧
    (infoStep push fromUci turn selector st t).stringToks = st.stringToks := by
  unfold infoStep
  rw [if_neg hcur]
  by_cases hemp : t = ""
  · simp [hemp]
  · rw [if_neg hemp, if_neg hkw]
    exact ⟨rfl, rfl⟩

theorem foldl_no_string (push : List String → String → Bool) (fromUci : String → Bool)
    (turn : Bool) (selector : Nat) (toks : List String) (hs : "string" ∉ toks) :
    ∀ st : PState, ¬ st.cur = some "string" →
    ¬ (toks.foldl (infoStep push fromUci turn selector) st).cur = some "string" ∧
    (toks.foldl (infoStep push fromUci turn selector) st).stringToks = st.stringToks := by
  induction toks with
  | nil =>
    intro st h
    exact ⟨h, rfl⟩
  | cons t rest ih =>
    intro st h
    have hts : t ≠ "string" := by
      rintro rfl
      exact hs (by simp)
    have hrest : "string" ∉ rest := fun hc => hs (by simp [hc])
    rw [List.foldl_cons]
    by_cases hkw : t ∈ uciInfoKeywords
    · have hemp : ¬ t = "" := by
        rintro rfl
        simp [uciInfoKeywords] at hkw
      have hk := infoStep_keyword push fromUci turn selector st t h hkw hemp
      have hnext : ¬ (infoStep push fromUci turn selector st t).cur = some "string" := by
        rw [hk.1]
        simp [hts]
      obtain ⟨ha, hb⟩ := ih hrest _ hnext
      exact ⟨ha, by rw [hb, hk.2]⟩
    · have hp := infoStep_preserves push fromUci turn selector st t h hkw
      have hnext : ¬ (infoStep push fromUci turn selector st t).cur = some "string" := by
        rw [hp.1]
        exact h
      obtain ⟨ha, hb⟩ := ih hrest _ hnext
      exact ⟨ha, by rw [hb, hp.2]⟩

/-- C4: parsing `depth D score cp C pv M1 M2 M3` with the full selector
yields depth = D, score = PovScore(Cp C, root turn) and pv = [M1, M2, M3]
for any integer literals D, C and any moves M1 M2 M3 playable in sequence
from the root (move tokens are nonempty and are not parser keywords, as
UCI moves are); and on any line whose first `string` keyword is followed by
a nonempty remainder, the entire remainder is stored verbatim as one value
with no keyword inside it re-tokenised. -/
theorem C4_info_roundtrip :
    (∀ (push : List String → String → Bool) (fromUci : String → Bool) (turn : Bool)
      (sD sC m1 m2 m3 : String) (D C : Int),
      pyIntOfString sD = some D → pyIntOfString sC = some C →
      m1 ∉ uciInfoKeywords → ¬ m1 = "" →
      m2 ∉ uciInfoKeywords → ¬ m2 = "" →
      m3 ∉ uciInfoKeywords → ¬ m3 = "" →
      push [] m1 = true → push [m1] m2 = true → push [m1, m2] m3 = true →
      (parseUciInfoTokens push fromUci turn INFO_ALL
          ["depth", sD, "score", "cp", sC, "pv", m1, m2, m3]).depth = some D ∧
      (parseUciInfoTokens push fromUci turn INFO_ALL
          ["depth", sD, "score", "cp", sC, "pv", m1, m2, m3]).score
        = some ⟨Score.cp C, turn⟩ ∧
      (parseUciInfoTokens push fromUci turn INFO_ALL
          ["depth", sD, "score", "cp", sC, "pv", m1, m2, m3]).pv
        = some [m1, m2, m3]) ∧
    (∀ (push : List String → String → Bool) (fromUci : String → Bool) (turn : Bool)
      (selector : Nat) (pre rest : List String),
      ¬ selector = 0 → "string" ∉ pre → ¬ rest = [] →
      (parseUciInfoTokens push fromUci turn selector
          (pre ++ "string" :: rest)).string = some (String.intercalate " " rest)) := by
  constructor
  · intro push fromUci turn sD sC m1 m2 m3 D C hD hC hk1 he1 hk2 he2 hk3 he3 hp1 hp2 hp3
    have hDkw := intLit_not_keyword sD D hD
    have hDne := intLit_ne_empty sD D hD
    have hCkw := intLit_not_keyword sC C hC
    have hCne := intLit_ne_empty sC C hC
    have hCcp : sC ≠ "cp" := intLit_ne sC C hC "cp" (by decide)
    have hCmate : sC ≠ "mate" := intLit_ne sC C hC "mate" (by decide)
    have hClb : sC ≠ "lowerbound" := intLit_ne sC C hC "lowerbound" (by decide)
    have hCub : sC ≠ "upperbound" := intLit_ne sC C hC "upperbound" (by decide)
    have hS : ¬ INFO_ALL.land INFO_SCORE = 0 := by decide
    have hP : ¬ INFO_ALL.land INFO_PV = 0 := by decide
    have hs1 : infoStep push fromUci turn INFO_ALL {} "depth"
        = { cur := some "depth" } := by rfl
    have hs2 : infoStep push fromUci turn INFO_ALL { cur := some "depth" } sD
        = { acc := { info := { depth := some D } }, cur := some "depth" } := by
      simp [infoStep, infoStepValue, setIntField, hDkw, hDne, hD]
    have hs3 : infoStep push fromUci turn INFO_ALL
        { acc := { info := { depth := some D } }, cur := some "depth" } "score"
        = { acc := { info := { depth := some D } }, cur := some "score" } := by
      simp [infoStep, endOfParameter, uciInfoKeywords]
    have hs4 : infoStep push fromUci turn INFO_ALL
        { acc := { info := { depth := some D } }, cur := some "score" } "cp"
        = { acc := { info := { depth := some D }, scoreKind := some "cp" },
            cur := some "score" } := by
      simp [infoStep, infoStepValue, uciInfoKeywords, hS]
    have hs5 : infoStep push fromUci turn INFO_ALL
        { acc := { info := { depth := some D }, scoreKind := some "cp" },
          cur := some "score" } sC
        = { acc := { info := { depth := some D, score := some ⟨Score.cp C, turn⟩ },
                     scoreKind := some "cp" },
            cur := some "score" } := by
      simp [infoStep, infoStepValue, hCkw, hCne, hCcp, hCmate, hClb, hCub, hC, hS]
    have hs6 : infoStep push fromUci turn INFO_ALL
        { acc := { info := { depth := some D, score := some ⟨Score.cp C, turn⟩ },
                   scoreKind := some "cp" },
          cur := some "score" } "pv"
        = { acc := { info := { depth := some D, score := some ⟨Score.cp C, turn⟩ },
                     pv := some [], hist := some [] },
            cur := some "pv" } := by
      simp [infoStep, endOfParameter, uciInfoKeywords, hP]
    have hs7 : infoStep push fromUci turn INFO_ALL
        { acc := { info := { depth := some D, score := some ⟨Score.cp C, turn⟩ },
                   pv := some [], hist := some [] },
          cur := some "pv" } m1
        = { acc := { info := { depth := some D, score := some ⟨Score.cp C, turn⟩ },
                     pv := some [m1], hist := some [m1] },
            cur := some "pv" } := by
      simp [infoStep, infoStepValue, hk1, he1, hp1]
    have hs8 : infoStep push fromUci turn INFO_ALL
        { acc := { info := { depth := some D, score := some ⟨Score.cp C, turn⟩ },
                   pv := some [m1], hist := some [m1] },
          cur := some "pv" } m2
        = { acc := { info := { depth := some D, score := some ⟨Score.cp C, turn⟩ },
                     pv := some [m1, m2], hist := some [m1, m2] },
            cur := some "pv" } := by
      simp [infoStep, infoStepValue, hk2, he2, hp2]
    have hs9 : infoStep push fromUci turn INFO_ALL
        { acc := { info := { depth := some D, score := some ⟨Score.cp C, turn⟩ },
                   pv := some [m1, m2], hist := some [m1, m2] },
          cur := some "pv" } m3
        = { acc := { info := { depth := some D, score := some ⟨Score.cp C, turn⟩ },
                     pv := some [m1, m2, m3], hist := some [m1, m2, m3] },
            cur := some "pv" } := by
      simp [infoStep, infoStepValue, hk3, he3, hp3]
    simp only [parseUciInfoTokens, List.foldl_cons, List.foldl_nil,
      hs1, hs2, hs3, hs4, hs5, hs6, hs7, hs8, hs9]
    rw [if_neg (by decide)]
    simp [endOfParameter]
  · intro push fromUci turn selector pre rest hsel hpre hrest
    simp only [parseUciInfoTokens]
    rw [if_neg hsel, List.foldl_append, List.foldl_cons]
    have hinv := foldl_no_string push fromUci turn selector pre hpre {} (by decide)
    have hk := infoStep_keyword push fromUci turn selector
      (pre.foldl (infoStep push fromUci turn selector) {}) "string"
      hinv.1 (by decide) (by decide)
    rw [foldl_stringMode push fromUci turn selector rest _ hk.1]
    have hstr : (infoStep push fromUci turn selector
        (pre.foldl (infoStep push fromUci turn selector) {}) "string").stringToks = [] := by
      rw [hk.2, hinv.2]
    simp [hstr, hrest]

/-- Board stub for the witness: the three moves of the sample line are
accepted in any position. -/
def samplePush : List String → String → Bool :=
  fun _ t => t ∈ ["e2e4", "e7e5", "g1f3"]

/-- Witness for C4: the concrete line
depth 10 score cp 34 pv e2e4 e7e5 g1f3 parses to depth 10, Cp(34) for the
side to move and that pv, and a concrete string remainder is verbatim. -/
theorem C4_info_roundtrip_witness :
    ((parseUciInfoTokens samplePush (fun _ => true) true INFO_ALL
        ["depth", "10", "score", "cp", "34", "pv", "e2e4", "e7e5", "g1f3"]).depth
      = some 10 ∧
    (parseUciInfoTokens samplePush (fun _ => true) true INFO_ALL
        ["depth", "10", "score", "cp", "34", "pv", "e2e4", "e7e5", "g1f3"]).score
      = some ⟨Score.cp 34, true⟩ ∧
    (parseUciInfoTokens samplePush (fun _ => true) true INFO_ALL
        ["depth", "10", "score", "cp", "34", "pv", "e2e4", "e7e5", "g1f3"]).pv
      = some ["e2e4", "e7e5", "g1f3"]) ∧
    (parseUciInfoTokens samplePush (fun _ => true) true INFO_ALL
        ["depth", "1", "string", "keep", "pv", "intact"]).string
      = some "keep pv intact" := by
  constructor
  · exact C4_info_roundtrip.1 samplePush (fun _ => true) true "10" "34" "e2e4" "e7e5" "g1f3"
      10 34 (by decide) (by decide) (by decide) (by decide) (by decide) (by decide)
      (by decide) (by decide) (by decide) (by decide) (by decide)
  · exact C4_info_roundtrip.2 samplePush (fun _ => true) true INFO_ALL
      ["depth", "1"] ["keep", "pv", "intact"] (by decide) (by decide) (by decide)

/-- State of an asyncio future that carries a play result. -/
inductive FutValue where
  | pending
  | cancelled
  | resolvedMove (m : Option String)
  | failed (e : PyErr)
deriving DecidableEq, Repr

/-- XBoardProtocol.play.Command._move for a non-pondering command: if the
result is not cancelled, push the engine's move on the driver board; on a
ValueError the except branch sets an EngineError on the result and — with
no return, unlike the UCI handler — control falls through to
result.set_result(PlayResult(move, ...)) where the local move was never
bound, so an UnboundLocalError escapes; if the result had already been
resolved, set_exception/set_result raise InvalidStateError instead. The
board push is abstracted by pushXboard, returning the parsed move or none
for a ValueError. Returns the result future and the exception escaping the
line-received path, if any. -/
def xboardMoveReceived (pushXboard : String → Option String) (arg : String)
    (result : FutValue) : FutValue × Option PyErr :=
  if result = .cancelled then (result, none)
  else
    match pushXboard arg with
    | some m =>
      match result with
      | .pending => (.resolvedMove (some m), none)
      | r => (r, some .invalidStateError)
    | none =>
      match result with
      | .pending => (.failed .engineError, some .unboundLocalError)
      | r => (r, some .invalidStateError)

/-- UciProtocol.play.Command._bestmove, restricted to the non-pondering
path on a single-token argument: "(none)" resolves with a null move; an
unparseable or illegal token sets an EngineError on the result and returns
(the except branch ends in return, so the finally block runs end(engine)
and nothing escapes); a legal token resolves the result with the move. -/
def uciBestmoveReceived (parseUci : String → Option String) (tok : String)
    (result : FutValue) : FutValue × Option PyErr :=
  if result = .cancelled then (result, none)
  else if tok = "(none)" then
    match result with
    | .pending => (.resolvedMove none, none)
    | r => (r, some .invalidStateError)
  else
    match parseUci tok with
    | none =>
      match result with
      | .pending => (.failed .engineError, none)
      | r => (r, some .invalidStateError)
    | some m =>
      match result with
      | .pending => (.resolvedMove (some m), none)
      | r => (r, some .invalidStateError)

/-- C5 at the failing input: when the XBoard engine sends a move the board
rejects, the result future does receive the engine-error but an
UnboundLocalError escapes the line-received path, against the claim that no
exception escapes; the UCI bestmove handler on the same shaped input
contains the error without anything escaping, and unparseable info fields
are dropped while the rest of the record stays intact. -/
theorem C5_illegal_move_crash :
    xboardMoveReceived (fun _ => none) "e9e9" .pending
      = (.failed .engineError, some .unboundLocalError) ∧
    uciBestmoveReceived (fun _ => none) "e9e9" .pending
      = (.failed .engineError, none) ∧
    (parseUciInfoTokens (fun _ _ => true) (fun _ => true) true INFO_ALL
        ["depth", "zz", "nodes", "5"]).depth = none ∧
    (parseUciInfoTokens (fun _ _ => true) (fun _ => true) true INFO_ALL
        ["depth", "zz", "nodes", "5"]).nodes = some 5 := by
  refine ⟨rfl, rfl, rfl, rfl⟩

/-- One piece of a str.format template: a literal, or a replacement field
with its field name (empty for automatic numbering). The format specs of
the modelled templates are all empty, so they are not carried. -/
inductive FmtPart where
  | lit (s : String)
  | field (name : String)
deriving DecidableEq, Repr

/-- str.format over a parsed template with positional arguments only,
already rendered with str() (rendering of ints and None is total, so eager
rendering is observationally equivalent to CPython's per-field
conversion): an empty field name consumes the next positional argument; an
all-digit name indexes the positionals; any other name is a keyword lookup
into the (absent) keyword arguments and raises KeyError. -/
def pyFormatGo (args : List String) : List FmtPart → Nat → String → Except PyErr String
  | [], _, out => .ok out
  | .lit s :: rest, auto, out => pyFormatGo args rest auto (out ++ s)
  | .field nm :: rest, auto, out =>
    if nm = "" then
      match args.get? auto with
      | some a => pyFormatGo args rest (auto + 1) (out ++ a)
      | none => .error .indexError
    else if nm.toList.all Char.isDigit then
      match args.get? nm.toNat! with
      | some a => pyFormatGo args rest auto (out ++ a)
      | none => .error .indexError
    else .error (.keyError nm)

/-- str.format entry point. -/
def pyFormat (parts : List FmtPart) (args : List String) : Except PyErr String :=
  pyFormatGo args parts 0 ""

/-- The template of the level line exactly as written in the source:
"level {} {}:{02d} {}". The third replacement field reads {02d}; the spec
syntax would require {:02d}, so "02d" is a field NAME. -/
def levelTemplate : List FmtPart :=
  [.lit "level ", .field "", .lit " ", .field "", .lit ":",
   .field "02d", .lit " ", .field ""]

/-- Limit: search termination constraints; time-like values in seconds,
modelled as exact rationals. -/
structure Limit where
  time : Option Rat := none
  depth : Option Int := none
  nodes : Option Int := none
  mate : Option Int := none
  white_clock : Option Rat := none
  black_clock : Option Rat := none
  white_inc : Option Rat := none
  black_inc : Option Rat := none
  remaining_moves : Option Int := none
deriving DecidableEq, Repr

/-- Python truthiness of an optional integer (None and 0 are falsy). -/
def truthyOptInt : Option Int → Bool
  | none => false
  | some n => n != 0

/-- Python truthiness of an optional number (None and 0.0 are falsy). -/
def truthyOptRat : Option Rat → Bool
  | none => false
  | some q => q != 0

/-- Python int() on a number: truncation toward zero. -/
def pyIntOfRat (q : Rat) : Int := if 0 ≤ q then ⌊q⌋ else ⌈q⌉

/-- Rendering of the increment argument (dead in every run of the level
line, since the format call raises at the third field before reaching it):
None renders as "None"; a numeric increment is rendered in a plain decimal
form standing in for CPython float repr. -/
def incRender : Option Rat → String
  | none => "None"
  | some q => if q.den = 1 then toString q.num ++ ".0" else toString q

/-- The time-control prelude of XBoardProtocol.play.Command.start: when
remaining_moves or the side-to-move increment is truthy, compute
divmod(int(clock), 60) — int(None) raises TypeError when the side to move
has no clock — and send the level line built by str.format on
levelTemplate. Returns the lines sent, or the exception escaping start. -/
def xboardLevelLines (board_turn : Bool) (limit : Limit) : Except PyErr (List String) :=
  let increment := if board_turn then limit.white_inc else limit.black_inc
  if truthyOptInt limit.remaining_moves ∨ truthyOptRat increment then
    match (if board_turn then limit.white_clock else limit.black_clock) with
    | none => .error .typeError
    | some clock =>
      let base := pyIntOfRat clock
      match pyFormat levelTemplate
          [toString (limit.remaining_moves.getD 0), toString (Int.fdiv base 60),
           toString (Int.fmod base 60), incRender increment] with
      | .ok line => .ok [line]
      | .error e => .error e
  else .ok []

/-- C6 at failing inputs: a play call with an increment for the side to
move (and likewise one with remaining_moves set) never sends the level
line — the str.format call raises KeyError for the malformed field name
"02d" (the source writes {02d} where {:02d} was intended), so start raises
instead of writing level 40 1:00 2 to the engine. -/
theorem C6_level_line_keyerror :
    xboardLevelLines true
        { white_clock := some 60, white_inc := some 2, remaining_moves := some 40 }
      = .error (.keyError "02d") ∧
    xboardLevelLines false
        { black_clock := some 125, black_inc := some 2 }
      = .error (.keyError "02d") := by
  constructor <;> rfl

/-- BaseCommand lifecycle states (CommandState). -/
inductive CommandState where
  | New
  | Active
  | Cancelling
  | Done
deriving DecidableEq, Repr

/-- State of a result or finished future. The resolved value (None or a
play result) is not needed by the dispatch claims. -/
inductive Fut where
  | pending
  | done
  | cancelled
  | failed (e : PyErr)
deriving DecidableEq, Repr

/-- Future.done(). -/
def Fut.isDone : Fut → Bool
  | .pending => false
  | _ => true

/-- asyncio Future.cancel(): a pending future becomes cancelled, a done
future is unchanged. -/
def Fut.cancel : Fut → Fut
  | .pending => .cancelled
  | f => f

/-- One command as the dispatch core sees it: lifecycle state, the result
and finished futures, whether the result-cancellation done-callback
registered at promotion is installed, and — instrumentation for stating
the claims — whether _start was ever invoked on it. -/
structure Cmd where
  state : CommandState := .New
  result : Fut := .pending
  finished : Fut := .pending
  cbInstalled : Bool := false
  everActive : Bool := false
deriving DecidableEq, Repr

/-- Behaviour of the submitted commands: what the start and cancel hooks of
command i write to the transport (play/analysis write their position, go
and stop lines there; the dispatch core is generic in them). -/
structure Hooks where
  startLines : Nat → List String
  cancelLines : Nat → List String

/-- Dispatch-relevant state of EngineProtocol: the command objects indexed
by submission order (indices at or above numCmds not yet created),
self.command and self.next_command as indices, the returncode future, and
the lines written to the transport tagged by the writing command. -/
@[ext]
structure Dispatch where
  cmds : Nat → Cmd := fun _ => {}
  numCmds : Nat := 0
  current : Option Nat := none
  next : Option Nat := none
  returncode : Option Int := none
  wire : List (Nat × String) := []

/-- Read a command object. -/
def Dispatch.getCmd (d : Dispatch) (i : Nat) : Cmd := d.cmds i

/-- Update a command object in place. -/
def Dispatch.modCmd (d : Dispatch) (i : Nat) (f : Cmd → Cmd) : Dispatch :=
  { d with cmds := fun j => if j = i then f (d.cmds i) else d.cmds j }

/-- previous_command_finished: mark the old current command Done, move
next_command into current, and if a command was promoted, register its
done-callbacks and _start it (New → Active; the start hook writes its lines
to the transport). -/
def promote (hk : Hooks) (d : Dispatch) : Dispatch :=
  let d1 := match d.current with
    | some c => d.modCmd c fun cc => { cc with state := .Done }
    | none => d
  let d2 := { d1 with current := d1.next, next := none }
  match d2.current with
  | some i =>
    let d3 := d2.modCmd i fun c =>
      { c with cbInstalled := true, state := .Active, everActive := true }
    { d3 with wire := d3.wire ++ (hk.startLines i).map fun s => (i, s) }
  | none => d2

/-- EngineProtocol.communicate up to the await on the new command's result:
raise engine-terminated if the exit code is already resolved; cancel the
result and finished futures of a waiting next_command and mark it Done (it
never ran); install the new command as next_command; then promote at once
when no command is current, or cancel the current command's still-pending
result (the pre-emption request — its _cancel runs later from the
done-callback), or, when its result is done but not cancelled, invoke its
cancel hook (Active → Cancelling). Returns the new state and the submitted
command's index, or the error raised. -/
def submit (hk : Hooks) (d : Dispatch) : Dispatch × Except PyErr Nat :=
  match d.returncode with
  | some code => (d, .error (.engineTerminated code))
  | none =>
    let n := d.numCmds
    let d1 := { d with numCmds := n + 1 }
    let d2 := match d1.next with
      | some j => d1.modCmd j fun c =>
        { c with result := c.result.cancel, finished := c.finished.cancel, state := .Done }
      | none => d1
    let d3 := { d2 with next := some n }
    match d3.current with
    | none => (promote hk d3, .ok n)
    | some cur =>
      if (d3.getCmd cur).result.isDone = false then
        (d3.modCmd cur fun c => { c with result := c.result.cancel }, .ok n)
      else if (d3.getCmd cur).result ≠ .cancelled then
        ({ (d3.modCmd cur fun c => { c with state := .Cancelling }) with
           wire := d3.wire ++ (hk.cancelLines cur).map fun s => (cur, s) }, .ok n)
      else (d3, .ok n)

/-- The done-callback installed on a promoted command's result (fired via
call_soon after the result is cancelled): cmd._cancel — Active →
Cancelling — and the cancel hook writes its lines. -/
def runCancelCb (hk : Hooks) (d : Dispatch) (i : Nat) : Dispatch :=
  if (d.getCmd i).cbInstalled = true ∧ (d.getCmd i).result = .cancelled ∧
      (d.getCmd i).state = .Active then
    { (d.modCmd i fun c => { c with state := .Cancelling }) with
      wire := d.wire ++ (hk.cancelLines i).map fun s => (i, s) }
  else d

/-- BaseCommand.set_finished on the current command, followed by the
finished done-callback (previous_command_finished): resolve the result if
still pending, resolve finished, then promote the next command. -/
def finishCurrent (hk : Hooks) (d : Dispatch) : Dispatch :=
  match d.current with
  | some i =>
    promote hk (d.modCmd i fun c =>
      { c with result := if c.result.isDone then c.result else .done, finished := .done })
  | none => d

/-- BaseCommand._engine_terminated via _handle_exception: a pending result
receives the engine-terminated error carrying the exit code (a done result
routes the error to the loop's out-of-band exception handler instead); a
pending finished future resolves. -/
def engineTerminatedCmd (code : Int) (c : Cmd) : Cmd :=
  { c with
    result := if c.result.isDone then c.result else .failed (.engineTerminated code),
    finished := if c.finished.isDone then c.finished else .done }

/-- EngineProtocol.connection_lost: terminate the current and next
commands, clear both slots, and resolve the returncode future with the
child's exit code. -/
def connectionLost (code : Int) (d : Dispatch) : Dispatch :=
  let d1 := match d.current with
    | some i => d.modCmd i (engineTerminatedCmd code)
    | none => d
  let d2 := match d1.next with
    | some j => d1.modCmd j (engineTerminatedCmd code)
    | none => d1
  { d2 with current := none, next := none, returncode := some code }

/-- A freshly promoted command. -/
def activeCmd : Cmd :=
  { state := .Active, result := .pending, finished := .pending,
    cbInstalled := true, everActive := true }

/-- Command 0 after a later submission cancelled its pending result. -/
def cmd0Cancelled : Cmd :=
  { activeCmd with result := .cancelled }

/-- A superseded intermediate command: marked Done without ever starting,
with both futures cancelled. -/
def deadCmd : Cmd :=
  { state := .Done, result := .cancelled, finished := .cancelled,
    cbInstalled := false, everActive := false }

/-- Dispatcher state after command 0 was promoted and k overlapping
submissions arrived (k ≥ 1): command 0 is still Active, its result
cancelled by the first overlap; commands 1..k-1 are retired; command k
waits as next_command. -/
def midState (hk : Hooks) (k : Nat) : Dispatch :=
  { cmds := fun i => if i = 0 then cmd0Cancelled else if i < k then deadCmd else {},
    numCmds := k + 1,
    current := some 0,
    next := some k,
    returncode := none,
    wire := (hk.startLines 0).map fun s => (0, s) }

theorem submit_empty (hk : Hooks) :
    (submit hk {}).1 =
      { cmds := fun i => if i = 0 then activeCmd else {},
        numCmds := 1, current := some 0, next := none, returncode := none,
        wire := (hk.startLines 0).map fun s => (0, s) } := by
  apply Dispatch.ext <;> try rfl
  all_goals
    funext i
    by_cases h : i = 0 <;> simp [submit, promote, Dispatch.modCmd, h, activeCmd]

theorem submit_first_overlap (hk : Hooks) :
    (submit hk (submit hk {}).1).1 = midState hk 1 := by
  rw [submit_empty hk]
  apply Dispatch.ext <;> try rfl
  all_goals
    funext i
    by_cases h : i = 0 <;>
      simp [submit, promote, Dispatch.modCmd, Dispatch.getCmd, midState, h,
        cmd0Cancelled, activeCmd, Fut.cancel, Fut.isDone]

theorem submit_step (hk : Hooks) (k : Nat) (hk1 : 1 ≤ k) :
    (submit hk (midState hk k)).1 = midState hk (k + 1) := by
  have hne : ¬ ((0 : Nat) = k) := by omega
  have hk0 : ¬ (k = 0) := by omega
  have hcur : (midState hk k).cmds 0 = cmd0Cancelled := by simp [midState]
  have hfresh : (midState hk k).cmds k = {} := by
    simp [midState, hk0]
  have hbody : (submit hk (midState hk k)).1 =
      { (midState hk k).modCmd k (fun c =>
          { c with result := c.result.cancel, finished := c.finished.cancel,
                   state := CommandState.Done }) with
        numCmds := k + 2, next := some (k + 1) } := by
    unfold submit
    simp only [midState, Dispatch.getCmd, Dispatch.modCmd]
    simp [hne, cmd0Cancelled, activeCmd, Fut.isDone, Fut.cancel]
  rw [hbody]
  apply Dispatch.ext <;> try rfl
  · funext i
    simp only [Dispatch.modCmd, hfresh]
    by_cases h : i = k
    · subst h
      rw [if_pos rfl]
      simp [midState, hk0, Fut.cancel, deadCmd, Nat.lt_succ_self]
    · rw [if_neg h]
      by_cases h0 : i = 0
      · simp [midState, h0]
      · simp only [midState]
        rw [if_neg h0, if_neg h0]
        by_cases hik : i < k
        · rw [if_pos hik, if_pos (show i < k + 1 by omega)]
        · rw [if_neg hik, if_neg (show ¬ i < k + 1 by omega)]

/-- The C1 scenario: an empty dispatcher receives command 0 (promoted
immediately); N-1 further requests are submitted via communicate while
command 0 is still active; then the scheduled cancellation callback on
command 0 runs (its cancel hook sends the protocol stop) and the engine's
end-of-search acknowledgment lets command 0 call set_finished, promoting
the newest command. -/
def scenarioC1 (hk : Hooks) (N : Nat) : Dispatch :=
  finishCurrent hk (runCancelCb hk
    ((fun d => (submit hk d).1)^[N - 1] (submit hk {}).1) 0)

theorem iterate_submit (hk : Hooks) (k : Nat) (h : 1 ≤ k) :
    (fun d => (submit hk d).1)^[k] (submit hk {}).1 = midState hk k := by
  induction k with
  | zero => omega
  | succ m ih =>
    by_cases hm : m = 0
    · subst hm
      simpa using submit_first_overlap hk
    · rw [Function.iterate_succ_apply', ih (by omega)]
      exact submit_step hk m (by omega)

/-- Command 0 once its cancel hook has run. -/
def cmd0Cxl : Cmd :=
  { state := .Cancelling, result := .cancelled, finished := .pending,
    cbInstalled := true, everActive := true }

/-- Command 0 after set_finished and retirement. -/
def cmd0Final : Cmd :=
  { state := .Done, result := .cancelled, finished := .done,
    cbInstalled := true, everActive := true }

/-- Dispatcher state after the cancellation callback ran on command 0. -/
def midCancelling (hk : Hooks) (k : Nat) : Dispatch :=
  { cmds := fun i => if i = 0 then cmd0Cxl else if i < k then deadCmd else {},
    numCmds := k + 1,
    current := some 0,
    next := some k,
    returncode := none,
    wire := ((hk.startLines 0).map fun s => (0, s))
      ++ ((hk.cancelLines 0).map fun s => (0, s)) }

/-- Final dispatcher state of the C1 scenario with k = N - 1. -/
def finalState (hk : Hooks) (k : Nat) : Dispatch :=
  { cmds := fun i => if i = 0 then cmd0Final else if i < k then deadCmd
      else if i = k then activeCmd else {},
    numCmds := k + 1,
    current := some k,
    next := none,
    returncode := none,
    wire := ((hk.startLines 0).map fun s => (0, s))
      ++ ((hk.cancelLines 0).map fun s => (0, s))
      ++ ((hk.startLines k).map fun s => (k, s)) }

theorem runCancelCb_mid (hk : Hooks) (k : Nat) (h : 1 ≤ k) :
    runCancelCb hk (midState hk k) 0 = midCancelling hk k := by
  unfold runCancelCb
  rw [if_pos ⟨rfl, rfl, rfl⟩]
  apply Dispatch.ext <;> try rfl
  all_goals
    funext i
    by_cases h0 : i = 0 <;>
      simp [Dispatch.modCmd, Dispatch.getCmd, midState, midCancelling, h0,
        cmd0Cancelled, activeCmd, cmd0Cxl]

theorem finish_mid (hk : Hooks) (k : Nat) (h : 1 ≤ k) :
    finishCurrent hk (midCancelling hk k) = finalState hk k := by
  have hk0 : ¬ (k = 0) := by omega
  have h0k : ¬ ((0 : Nat) = k) := by omega
  unfold finishCurrent promote
  simp only [midCancelling, Dispatch.modCmd, Dispatch.getCmd]
  apply Dispatch.ext <;> try rfl
  all_goals try
    (funext i
     by_cases hi0 : i = 0
     · subst hi0
       simp [finalState, hk0, h0k, cmd0Cxl, cmd0Final, Fut.isDone]
     · by_cases hik : i = k
       · subst hik
         simp [finalState, hk0, activeCmd, Nat.lt_irrefl]
       · by_cases hlt : i < k <;> simp [finalState, hi0, hik, hlt])
  all_goals simp [finalState, hk0, h0k, Nat.lt_irrefl, List.append_assoc]

theorem scenario_eq (hk : Hooks) (k : Nat) (h : 1 ≤ k) :
    scenarioC1 hk (k + 1) = finalState hk k := by
  unfold scenarioC1
  rw [show k + 1 - 1 = k from rfl, iterate_submit hk k h,
    runCancelCb_mid hk k h, finish_mid hk k h]

/-- C1: with N ≥ 2 overlapping requests, exactly the first and the N-th
command ever reach the Active state; every intermediate command ends Done
with its result future cancelled, never having started, and it causes no
writes to the transport — every line on the wire was written by command 0
or command N-1. -/
theorem C1_queue_discipline (hk : Hooks) (N : Nat) (hN : 2 ≤ N) :
    (∀ i, 0 < i → i < N - 1 →
      (scenarioC1 hk N).getCmd i = deadCmd ∧
        ∀ e ∈ (scenarioC1 hk N).wire, e.1 ≠ i) ∧
    (∀ i, i < N →
      (((scenarioC1 hk N).getCmd i).everActive = true ↔ i = 0 ∨ i = N - 1)) ∧
    ((scenarioC1 hk N).getCmd (N - 1)).state = .Active ∧
    (∀ e ∈ (scenarioC1 hk N).wire, e.1 = 0 ∨ e.1 = N - 1) := by
  obtain ⟨k, rfl⟩ : ∃ k, N = k + 1 := ⟨N - 1, by omega⟩
  have hk1 : 1 ≤ k := by omega
  have hk0 : ¬ (k = 0) := by omega
  rw [scenario_eq hk k hk1]
  simp only [Nat.add_sub_cancel]
  refine ⟨?_, ?_, ?_, ?_⟩
  · intro i hi0 hik
    have hi0n : ¬ (i = 0) := by omega
    constructor
    · simp [Dispatch.getCmd, finalState, hi0n, hik]
    · intro e he
      simp only [finalState, List.mem_append, List.mem_map] at he
      rcases he with (⟨s, _, rfl⟩ | ⟨s, _, rfl⟩) | ⟨s, _, rfl⟩ <;> simp <;> omega
  · intro i hi
    by_cases h0 : i = 0
    · simp [Dispatch.getCmd, finalState, h0, cmd0Final]
    · by_cases hk2 : i = k
      · subst hk2
        simp [Dispatch.getCmd, finalState, hk0, activeCmd, Nat.lt_irrefl]
      · have hlt : i < k := by omega
        simp [Dispatch.getCmd, finalState, h0, hk2, hlt, deadCmd]
        try omega
  · simp [Dispatch.getCmd, finalState, hk0, activeCmd, Nat.lt_irrefl]
  · intro e he
    simp only [finalState, List.mem_append, List.mem_map] at he
    rcases he with (⟨s, _, rfl⟩ | ⟨s, _, rfl⟩) | ⟨s, _, rfl⟩ <;> simp

/-- Hook set for the witness: every command writes one go line when started
and one stop line when cancelled. -/
def sampleHooks : Hooks :=
  { startLines := fun _ => ["go"], cancelLines := fun _ => ["stop"] }

/-- Witness for C1 at N = 3: the middle command is retired cancelled
without starting, the third is Active, and the wire holds only lines of
commands 0 and 2. -/
theorem C1_queue_discipline_witness :
    (scenarioC1 sampleHooks 3).getCmd 1 = deadCmd ∧
    ((scenarioC1 sampleHooks 3).getCmd 2).state = .Active ∧
    (((scenarioC1 sampleHooks 3).getCmd 1).everActive = true ↔ 1 = 0 ∨ 1 = 2) := by
  refine ⟨((C1_queue_discipline sampleHooks 3 (by omega)).1 1 (by omega) (by omega)).1,
    (C1_queue_discipline sampleHooks 3 (by omega)).2.2.1, ?_⟩
  exact (C1_queue_discipline sampleHooks 3 (by omega)).2.1 1 (by omega)

/-- C2: when the engine process exits, the pending current and next
commands both fail with an engine-terminated error carrying the child's
exit code, the returncode future resolves with that code, and every
communicate call made after the exit-code future is resolved raises an
engine-terminated error carrying that exit code while leaving the entire
dispatcher state — the transport writes included — untouched. -/
theorem C2_engine_terminated (hk : Hooks) (d : Dispatch) (code : Int) (i j : Nat)
    (hcur : d.current = some i) (hnext : d.next = some j) (hij : ¬ (i = j))
    (hri : (d.getCmd i).result = .pending) (hrj : (d.getCmd j).result = .pending) :
    ((connectionLost code d).getCmd i).result = .failed (.engineTerminated code) ∧
    ((connectionLost code d).getCmd j).result = .failed (.engineTerminated code) ∧
    (connectionLost code d).returncode = some code ∧
    (∀ d' : Dispatch, d'.returncode = some code →
      submit hk d' = (d', .error (.engineTerminated code))) := by
  refine ⟨?_, ?_, rfl, ?_⟩
  · simp only [connectionLost, hcur, hnext, Dispatch.modCmd, Dispatch.getCmd] at *
    simp [hij, engineTerminatedCmd, hri, Fut.isDone]
  · simp only [connectionLost, hcur, hnext, Dispatch.modCmd, Dispatch.getCmd] at *
    have hji : ¬ (j = i) := fun hc => hij hc.symm
    simp [hji, engineTerminatedCmd, hrj, Fut.isDone]
  · intro d' hrc
    simp [submit, hrc]

/-- Dispatcher with a pending active command 0 and a pending next
command 1, about to lose the engine. -/
def sampleDispatch : Dispatch :=
  { cmds := fun i => if i = 0 then activeCmd else {},
    numCmds := 2, current := some 0, next := some 1, returncode := none,
    wire := [] }

/-- Witness for C2: exit code 7 fails both commands with the
engine-terminated error carrying 7, and a later communicate raises it
without touching the state. -/
theorem C2_engine_terminated_witness :
    ((connectionLost 7 sampleDispatch).getCmd 0).result
        = .failed (.engineTerminated 7) ∧
    ((connectionLost 7 sampleDispatch).getCmd 1).result
        = .failed (.engineTerminated 7) ∧
    submit sampleHooks (connectionLost 7 sampleDispatch)
        = (connectionLost 7 sampleDispatch, .error (.engineTerminated 7)) := by
  have h := C2_engine_terminated sampleHooks sampleDispatch 7 0 1 rfl rfl
    (by decide) rfl rfl
  exact ⟨h.1, h.2.1, h.2.2.2 _ h.2.2.1⟩

end PyChess
